import Mathlib

/-!
# rote: session layer of the terminal emulator (`rote.cpp`)

A shallow embedding of `rote.cpp` and the properties of its entry points.

* C `int` / `pid_t` values are `Int`; no arithmetic in the file can leave the
  32-bit range on the inputs considered (`rows - 1` is only computed for `rows > 0`).
* A C buffer argument `(data, len)` is the list of its `len` bytes.
* The operating system is a deterministic machine `Kernel κ` over an arbitrary
  state type `κ`; every system call and every call of the interpreter entry point
  `rote_vt_inject` is appended to a chronological log.
* `rote_vt_inject` lives outside `rote.cpp`; its effect on the terminal is the
  parameter `interp`.
-/

namespace Rote

/-- One byte of terminal traffic (`char` / `unsigned char`). -/
abbrev Byte := Nat

/-- A screen cell, `RoteCell` of `rote.hpp`: the fields `rote.cpp` writes. -/
structure RoteCell where
  ch : Nat
  attr : Nat
deriving DecidableEq, Repr

/-- The private part `RoteTermPrivate` of `roteprivate.hpp`: the fields `rote.cpp`
reads or writes. `handler` is a function pointer, `0` being `NULL`. -/
structure RoteTermPrivate where
  scrolltop : Int
  scrollbottom : Int
  pty : Int
  handler : Nat
deriving DecidableEq, Repr

/-- The terminal `RoteTerm` of `rote.hpp`: the fields `rote.cpp` reads or writes. -/
structure RoteTerm where
  rows : Int
  cols : Int
  cells : List (List RoteCell)
  crow : Int
  ccol : Int
  curattr : Nat
  childpid : Int
  line_dirty : List Bool
  pd : RoteTermPrivate
deriving DecidableEq, Repr

/-- What `rote.cpp` asks of the outside world, in the order it happens. -/
inductive Event where
  | select (fd : Int) (ret : Int)
  | read (fd : Int) (count : Nat) (ret : Int)
  | write (fd : Int) (offered : List Byte) (ret : Int)
  | close (fd : Int)
  | forkpty (ws_row ws_col : Int) (ret : Int)
  | inject (data : List Byte)
deriving DecidableEq, Repr

/-- Result of `read(fd, buf, count)`: the returned value and the bytes found in `buf`. -/
structure ReadResult where
  ret : Int
  buf : List Byte
deriving DecidableEq, Repr

/-- Result of `forkpty(&amaster, ...)`: the returned pid (`0` in the child, negative on
failure) and the descriptor stored through the first argument, if one was stored. -/
structure ForkResult where
  ret : Int
  amaster : Option Int
deriving DecidableEq, Repr

/-- The operating system as seen from `rote.cpp`: a deterministic machine over `κ`. -/
structure Kernel (κ : Type) where
  select : κ → Int → Int × κ
  read : κ → Int → Nat → ReadResult × κ
  write : κ → Int → List Byte → Int × κ
  close : κ → Int → κ
  forkpty : κ → Int → Int → ForkResult × κ

/-- Kernel state together with the log of everything done so far. -/
structure World (κ : Type) where
  kern : κ
  log : List Event

/-- The effect of `rote_vt_inject` on the terminal. -/
abbrev Interp := RoteTerm → List Byte → RoteTerm

/-- `#define ROTE_VT_UPDATE_ITERATIONS 5` -/
def ROTE_VT_UPDATE_ITERATIONS : Nat := 5

/-- `rote_vt_create`. `heap i` is what the block returned by
`malloc(sizeof(bool) * rows)` holds at index `i`; allocation is taken to succeed. -/
def rote_vt_create (rows cols : Int) (heap : Nat → Bool) : Option RoteTerm :=
  if rows ≤ 0 ∨ cols ≤ 0 then none
  else some
    { rows := rows
      cols := cols
      cells := List.replicate rows.toNat (List.replicate cols.toNat ⟨0x20, 0x70⟩)
      crow := 0
      ccol := 0
      curattr := 0x70
      childpid := 0
      line_dirty := (List.range rows.toNat).map heap
      pd := { scrolltop := 0, scrollbottom := rows - 1, pty := -1, handler := 0 } }

/-- A call `rote_vt_inject(rt, data, len)`. -/
def rote_vt_inject {κ : Type} (interp : Interp) (rt : RoteTerm) (data : List Byte)
    (w : World κ) : RoteTerm × World κ :=
  (interp rt data, ⟨w.kern, w.log ++ [Event.inject data]⟩)

/-- How a call of `rote_vt_forkpty` ends: it returns in the parent, or the process is the
child, which sets `TERM=linux` and runs `/bin/sh -c command` (or exits with status 127)
and never returns to the caller. -/
inductive ForkOutcome (κ : Type) where
  | returned (ret : Int) (rt : RoteTerm) (w : World κ)
  | child (command : List Byte) (w : World κ)

/-- `rote_vt_forkpty`. -/
def rote_vt_forkpty {κ : Type} (K : Kernel κ) (rt : RoteTerm) (command : List Byte)
    (w : World κ) : ForkOutcome κ :=
  let ws_row := rt.rows % 65536
  let ws_col := rt.cols % 65536
  let res := K.forkpty w.kern ws_row ws_col
  let rt1 : RoteTerm :=
    match res.1.amaster with
    | some fd => { rt with pd := { rt.pd with pty := fd } }
    | none => rt
  let w1 : World κ := ⟨res.2, w.log ++ [Event.forkpty ws_row ws_col res.1.ret]⟩
  if res.1.ret < 0 then ForkOutcome.returned (-1) rt1 w1
  else if res.1.ret = 0 then ForkOutcome.child command w1
  else ForkOutcome.returned res.1.ret { rt1 with childpid := res.1.ret } w1

/-- `rote_vt_forsake_child`. -/
def rote_vt_forsake_child {κ : Type} (K : Kernel κ) (rt : RoteTerm) (w : World κ) :
    RoteTerm × World κ :=
  let w1 : World κ :=
    if rt.pd.pty ≥ 0 then ⟨K.close w.kern rt.pd.pty, w.log ++ [Event.close rt.pd.pty]⟩
    else w
  ({ rt with pd := { rt.pd with pty := -1 }, childpid := 0 }, w1)

/-- `FD_SETSIZE` of `<sys/select.h>`: the number of descriptors an `fd_set` has room for
(1024 in glibc). `FD_SET(fd, &set)` is defined only for `0 ≤ fd < FD_SETSIZE`. -/
def FD_SETSIZE : Int := 1024

/-- The loop `while (n--) { ... }` of `rote_vt_update`. `none`: the behaviour is undefined,
`FD_SET(rt->pd->pty, &ifs)` being executed with a descriptor outside `0 ≤ fd < FD_SETSIZE`. -/
def rote_vt_update_loop {κ : Type} (K : Kernel κ) (interp : Interp) :
    Nat → RoteTerm → World κ → Option (RoteTerm × World κ)
  | 0, rt, w => some (rt, w)
  | n + 1, rt, w =>
    if rt.pd.pty < 0 ∨ FD_SETSIZE ≤ rt.pd.pty then none
    else
      let sel := K.select w.kern rt.pd.pty
      let w1 : World κ := ⟨sel.2, w.log ++ [Event.select rt.pd.pty sel.1]⟩
      if sel.1 ≤ 0 then some (rt, w1)
      else
        let r := K.read w1.kern rt.pd.pty 512
        let w2 : World κ := ⟨r.2, w1.log ++ [Event.read rt.pd.pty 512 r.1.ret]⟩
        if r.1.ret ≤ 0 then some (rt, w2)
        else
          let s := rote_vt_inject interp rt (r.1.buf.take r.1.ret.toNat) w2
          rote_vt_update_loop K interp n s.1 s.2

/-- `rote_vt_update`. `none`: undefined behaviour inside the loop. -/
def rote_vt_update {κ : Type} (K : Kernel κ) (interp : Interp) (rt : RoteTerm)
    (w : World κ) : Option (RoteTerm × World κ) :=
  if rt.pd.pty < 0 then some (rt, w)
  else rote_vt_update_loop K interp ROTE_VT_UPDATE_ITERATIONS rt w

/-- `static char errormsg[] = "\n(ROTE: pty write() error)\n";` -/
def errormsg : List Byte := "\n(ROTE: pty write() error)\n".toList.map Char.toNat

/-- A run of `rote_vt_write`: the state reached, and whether the call has returned
(`false`: the step budget ran out inside the loop). -/
structure WriteRun (κ : Type) where
  rt : RoteTerm
  world : World κ
  returned : Bool

/-- The loop `while (len > 0) { ... }` of `rote_vt_write`, at most `fuel` iterations. -/
def rote_vt_write_loop {κ : Type} (K : Kernel κ) (interp : Interp) :
    Nat → RoteTerm → List Byte → World κ → WriteRun κ
  | 0, rt, data, w => ⟨rt, w, decide (data.length = 0)⟩
  | fuel + 1, rt, data, w =>
    if data.length > 0 then
      let res := K.write w.kern rt.pd.pty data
      let w1 : World κ := ⟨res.2, w.log ++ [Event.write rt.pd.pty data res.1]⟩
      if res.1 < 0 then
        let s := rote_vt_inject interp rt errormsg w1
        ⟨s.1, s.2, true⟩
      else rote_vt_write_loop K interp fuel rt (data.drop res.1.toNat) w1
    else ⟨rt, w, true⟩

/-- `rote_vt_write`, its loop bounded by `fuel` iterations. -/
def rote_vt_write {κ : Type} (K : Kernel κ) (interp : Interp) (fuel : Nat)
    (rt : RoteTerm) (data : List Byte) (w : World κ) : WriteRun κ :=
  if rt.pd.pty < 0 then
    let s := rote_vt_inject interp rt data w
    ⟨s.1, s.2, true⟩
  else rote_vt_write_loop K interp fuel rt data w

/-- `rote_vt_install_handler`. -/
def rote_vt_install_handler (rt : RoteTerm) (handler : Nat) : RoteTerm :=
  { rt with pd := { rt.pd with handler := handler } }

/-- `rote_vt_get_pty_fd`. -/
def rote_vt_get_pty_fd (rt : RoteTerm) : Int := rt.pd.pty

/-- The descriptor's answers when it is offered `data` and, after every range it takes, the
rest of `data`: whether attempt number `j` (from 0) exists and is the first to return a
negative value. -/
def attemptErrors {κ : Type} (K : Kernel κ) (fd : Int) : Nat → κ → List Byte → Bool
  | 0, k, d => decide (d.length > 0) && decide ((K.write k fd d).1 < 0)
  | j + 1, k, d =>
    decide (d.length > 0) && decide (0 ≤ (K.write k fd d).1) &&
      attemptErrors K fd j (K.write k fd d).2 (d.drop (K.write k fd d).1.toNat)

/-! ## Reading the log -/

/-- Number of readiness checks in a log. -/
def selectCount : List Event → Nat
  | [] => 0
  | Event.select _ _ :: es => selectCount es + 1
  | _ :: es => selectCount es

/-- Number of `read` calls in a log. -/
def readCount : List Event → Nat
  | [] => 0
  | Event.read _ _ _ :: es => readCount es + 1
  | _ :: es => readCount es

/-- Number of calls of `rote_vt_inject` in a log. -/
def injectCount : List Event → Nat
  | [] => 0
  | Event.inject _ :: es => injectCount es + 1
  | _ :: es => injectCount es

/-- Number of `write` calls in a log. -/
def writeCount : List Event → Nat
  | [] => 0
  | Event.write _ _ _ :: es => writeCount es + 1
  | _ :: es => writeCount es

/-- All bytes handed to `rote_vt_inject`, in order. -/
def injected : List Event → List Byte
  | [] => []
  | Event.inject d :: es => d ++ injected es
  | _ :: es => injected es

/-- All bytes the descriptor accepted through `write`, in order: of each attempt the first
`ret` bytes offered. -/
def accepted : List Event → List Byte
  | [] => []
  | Event.write _ d r :: es => d.take r.toNat ++ accepted es
  | _ :: es => accepted es

/-- The byte count every `read` in the log asked for is at most `m`. -/
def readsAtMost (m : Nat) : List Event → Bool
  | [] => true
  | Event.read _ c _ :: es => decide (c ≤ m) && readsAtMost m es
  | _ :: es => readsAtMost m es

/-- Some `write` in the log returned a negative value. -/
def writeFailed : List Event → Bool
  | [] => false
  | Event.write _ _ r :: es => decide (r < 0) || writeFailed es
  | _ :: es => writeFailed es

/-! ## Environments and call sequences -/

/-- `rote_vt_update` called `m` times in a row. -/
def pumpN {κ : Type} (K : Kernel κ) (interp : Interp) :
    Nat → RoteTerm → World κ → Option (RoteTerm × World κ)
  | 0, rt, w => some (rt, w)
  | m + 1, rt, w =>
    match pumpN K interp m rt w with
    | some s => rote_vt_update K interp s.1 s.2
    | none => none

/-- State of a descriptor that delivers a finite byte stream and then end-of-stream:
the bytes not yet read, whether a read has already returned end-of-stream, and the number
of reads served. -/
structure StreamFd where
  pending : List Byte
  eof : Bool
  reads : Nat
deriving DecidableEq, Repr

/-- The stream descriptor as a kernel. It is ready while bytes or the end-of-stream are
still to be read (and afterwards as `readyAfterEof` says); a read at end-of-stream returns
`0`; any other read returns the first `sched i` pending bytes, `i` the number of the read,
clamped to at least one byte and at most the count asked for. -/
def streamKernel (sched : Nat → Nat) (readyAfterEof : Bool) : Kernel StreamFd where
  select s _ := (if s.pending ≠ [] ∨ s.eof = false ∨ readyAfterEof = true then 1 else 0, s)
  read s _ count :=
    if s.pending = [] then (⟨0, []⟩, ⟨[], true, s.reads + 1⟩)
    else
      let n := max 1 (min (sched s.reads) count)
      (⟨((s.pending.take n).length : Int), s.pending.take n⟩,
        ⟨s.pending.drop n, s.eof, s.reads + 1⟩)
  write s _ data := ((data.length : Int), s)
  close s _ := s
  forkpty s _ _ := (⟨-1, none⟩, s)

/-- `m` successive calls of `rote_vt_update` on a terminal whose descriptor delivers `stream`
and then end-of-stream, starting with an empty log. -/
def pumpStream (sched : Nat → Nat) (readyAfterEof : Bool) (interp : Interp) (rt : RoteTerm)
    (stream : List Byte) (m : Nat) : Option (RoteTerm × World StreamFd) :=
  pumpN (streamKernel sched readyAfterEof) interp m rt ⟨⟨stream, false, 0⟩, []⟩

/-- The interpreter leaves the pty descriptor alone. -/
def KeepsPty (interp : Interp) : Prop :=
  ∀ rt d, (interp rt d).pd.pty = rt.pd.pty

/-- The interpreter leaves the process handle and the recorded dimensions alone. -/
def KeepsHandleAndSize (interp : Interp) : Prop :=
  ∀ rt d, (interp rt d).pd.pty = rt.pd.pty ∧ (interp rt d).childpid = rt.childpid ∧
    (interp rt d).rows = rt.rows ∧ (interp rt d).cols = rt.cols

/-- The system `forkpty` either fails without storing a descriptor, or is the child, or
succeeds in the parent with a positive pid and a non-negative descriptor stored. -/
def ForkptyContract {κ : Type} (K : Kernel κ) : Prop :=
  ∀ k r c, ((K.forkpty k r c).1.ret < 0 → (K.forkpty k r c).1.amaster = none) ∧
    (0 < (K.forkpty k r c).1.ret →
      ∃ fd, (K.forkpty k r c).1.amaster = some fd ∧ 0 ≤ fd)

/-- The two shapes of the process handle: no process, or an attached process. -/
def HandleShape (rt : RoteTerm) : Prop :=
  (rt.pd.pty < 0 ∧ rt.childpid = 0) ∨ (0 ≤ rt.pd.pty ∧ 0 < rt.childpid)

/-- The entry points a caller may invoke on a live terminal. -/
inductive Op where
  | forkpty (command : List Byte)
  | forsake_child
  | update
  | write (data : List Byte) (fuel : Nat)
  | install_handler (handler : Nat)
  | get_pty_fd
deriving DecidableEq, Repr

/-- Whether the entry point is `rote_vt_forkpty` or `rote_vt_forsake_child`. -/
def Op.isAttachOrDetach : Op → Bool
  | Op.forkpty _ => true
  | Op.forsake_child => true
  | _ => false

/-- One call by the caller. `none`: the call does not come back to the caller with a defined
state (the child side of `rote_vt_forkpty`, a `rote_vt_write` still looping when its budget
ends, or a `rote_vt_update` whose behaviour is undefined). -/
def applyOp {κ : Type} (K : Kernel κ) (interp : Interp) :
    Op → RoteTerm × World κ → Option (RoteTerm × World κ)
  | Op.forkpty command, s =>
    match rote_vt_forkpty K s.1 command s.2 with
    | ForkOutcome.returned _ rt w => some (rt, w)
    | ForkOutcome.child _ _ => none
  | Op.forsake_child, s => some (rote_vt_forsake_child K s.1 s.2)
  | Op.update, s => rote_vt_update K interp s.1 s.2
  | Op.write data fuel, s =>
    if (rote_vt_write K interp fuel s.1 data s.2).returned = true then
      some ((rote_vt_write K interp fuel s.1 data s.2).rt,
        (rote_vt_write K interp fuel s.1 data s.2).world)
    else none
  | Op.install_handler h, s => some (rote_vt_install_handler s.1 h, s.2)
  | Op.get_pty_fd, s => some s

/-- A sequence of calls, first to last. -/
def runOps {κ : Type} (K : Kernel κ) (interp : Interp) :
    List Op → RoteTerm × World κ → Option (RoteTerm × World κ)
  | [], s => some s
  | op :: ops, s =>
    match applyOp K interp op s with
    | some s1 => runOps K interp ops s1
    | none => none

/-! ## Sample environments -/

/-- A sample interpreter: it moves the cursor column by the number of bytes received. -/
def sampleInterp : Interp := fun rt d => { rt with ccol := rt.ccol + (d.length : Int) }

/-- A sample kernel over a counter: the descriptor is always ready, a read yields the two
bytes `hi`, a write takes one byte, `forkpty` succeeds with fresh pid and descriptor. -/
def sampleKernel : Kernel Nat where
  select k _ := (1, k)
  read k _ _ := (⟨2, [104, 105]⟩, k)
  write k _ data := (((min 1 data.length : Nat) : Int), k)
  close k _ := k
  forkpty k _ _ := (⟨100 + (k : Int), some (3 + (k : Int))⟩, k + 1)

/-- A sample kernel whose `forkpty` and `write` always fail. -/
def failingKernel : Kernel Unit where
  select k _ := (0, k)
  read k _ _ := (⟨-1, []⟩, k)
  write k _ _ := (-1, k)
  close k _ := k
  forkpty k _ _ := (⟨-1, none⟩, k)

/-- A sample kernel over a counter whose `write` takes one byte the first time and fails
from then on. -/
def flakyKernel : Kernel Nat where
  select k _ := (0, k)
  read k _ _ := (⟨-1, []⟩, k)
  write k _ _ := (if k = 0 then 1 else -1, k + 1)
  close k _ := k
  forkpty k _ _ := (⟨-1, none⟩, k)

/-- A sample terminal with an attached process whose descriptor, 1103, is not below
`FD_SETSIZE`; child 42. -/
def sampleHigh : RoteTerm :=
  { rows := 1, cols := 1, cells := [[⟨0x20, 0x70⟩]], crow := 0, ccol := 0, curattr := 0x70,
    childpid := 42, line_dirty := [false],
    pd := { scrolltop := 0, scrollbottom := 0, pty := 1103, handler := 0 } }

/-- A sample terminal with an attached process: descriptor 3, child 42. -/
def sampleAttached : RoteTerm :=
  { rows := 1, cols := 1, cells := [[⟨0x20, 0x70⟩]], crow := 0, ccol := 0, curattr := 0x70,
    childpid := 42, line_dirty := [false],
    pd := { scrolltop := 0, scrollbottom := 0, pty := 3, handler := 0 } }

/-- A sample terminal without a process, as `rote_vt_create(1, 1)` returns it. -/
def sampleFresh : RoteTerm :=
  { rows := 1, cols := 1, cells := [[⟨0x20, 0x70⟩]], crow := 0, ccol := 0, curattr := 0x70,
    childpid := 0, line_dirty := [false],
    pd := { scrolltop := 0, scrollbottom := 0, pty := -1, handler := 0 } }

/-- A sample session: attach, write one byte, pump, install a handler. -/
def sampleOps : List Op :=
  [Op.forkpty [108, 115], Op.write [104] 1, Op.update, Op.install_handler 7]

/-- The state the sample session ends in. -/
def sampleFinal : RoteTerm × World Nat :=
  (runOps sampleKernel sampleInterp sampleOps (sampleFresh, ⟨0, []⟩)).getD
    (sampleFresh, ⟨0, []⟩)

/-! ## Logs and concatenation -/

theorem selectCount_append (a b : List Event) :
    selectCount (a ++ b) = selectCount a + selectCount b := by
  induction a with
  | nil => simp [selectCount]
  | cons e es ih =>
    cases e <;> simp [selectCount, ih]
    omega

theorem readCount_append (a b : List Event) :
    readCount (a ++ b) = readCount a + readCount b := by
  induction a with
  | nil => simp [readCount]
  | cons e es ih =>
    cases e <;> simp [readCount, ih]
    omega

theorem injectCount_append (a b : List Event) :
    injectCount (a ++ b) = injectCount a + injectCount b := by
  induction a with
  | nil => simp [injectCount]
  | cons e es ih =>
    cases e <;> simp [injectCount, ih]
    omega

theorem writeCount_append (a b : List Event) :
    writeCount (a ++ b) = writeCount a + writeCount b := by
  induction a with
  | nil => simp [writeCount]
  | cons e es ih =>
    cases e <;> simp [writeCount, ih]
    omega

theorem injected_append (a b : List Event) :
    injected (a ++ b) = injected a ++ injected b := by
  induction a with
  | nil => simp [injected]
  | cons e es ih => cases e <;> simp [injected, ih]

theorem accepted_append (a b : List Event) :
    accepted (a ++ b) = accepted a ++ accepted b := by
  induction a with
  | nil => simp [accepted]
  | cons e es ih => cases e <;> simp [accepted, ih]

theorem readsAtMost_append (m : Nat) (a b : List Event) :
    readsAtMost m (a ++ b) = (readsAtMost m a && readsAtMost m b) := by
  induction a with
  | nil => simp [readsAtMost]
  | cons e es ih => cases e <;> simp [readsAtMost, ih, Bool.and_assoc]

theorem writeFailed_append (a b : List Event) :
    writeFailed (a ++ b) = (writeFailed a || writeFailed b) := by
  induction a with
  | nil => simp [writeFailed]
  | cons e es ih => cases e <;> simp [writeFailed, ih, Bool.or_assoc]

/-! ## Creation -/

/-- C1: `rote_vt_create` returns nothing exactly when `rows ≤ 0` or `cols ≤ 0`; for positive
dimensions it returns a terminal recording `(rows, cols)`, with `rows` rows of `cols` cells,
every cell `(0x20, 0x70)`, cursor `(0,0)`, attribute `0x70`, scroll region `(0, rows-1)`,
descriptor `-1` and child `0`; and everything but the dirty flags is the same whatever the
allocator hands out. -/
theorem rote_vt_create_spec (rows cols : Int) (heap : Nat → Bool) :
    (rote_vt_create rows cols heap = none ↔ rows ≤ 0 ∨ cols ≤ 0) ∧
    (0 < rows → 0 < cols → ∃ rt, rote_vt_create rows cols heap = some rt ∧
      rt.rows = rows ∧ rt.cols = cols ∧
      (rt.cells.length : Int) = rows ∧
      (∀ row ∈ rt.cells, (row.length : Int) = cols ∧ ∀ c ∈ row, c = ⟨0x20, 0x70⟩) ∧
      rt.crow = 0 ∧ rt.ccol = 0 ∧ rt.curattr = 0x70 ∧
      rt.pd.scrolltop = 0 ∧ rt.pd.scrollbottom = rows - 1 ∧
      rt.pd.pty = -1 ∧ rt.childpid = 0) ∧
    (∀ heap2 : Nat → Bool,
      (rote_vt_create rows cols heap).map (fun rt => { rt with line_dirty := [] }) =
      (rote_vt_create rows cols heap2).map (fun rt => { rt with line_dirty := [] })) := by
  refine ⟨?_, ?_, ?_⟩
  · unfold rote_vt_create
    constructor
    · intro h
      by_contra hc
      rw [if_neg hc] at h
      exact Option.noConfusion h
    · intro h
      rw [if_pos h]
  · intro hr hc
    have hn : ¬ (rows ≤ 0 ∨ cols ≤ 0) := by omega
    refine ⟨_, by unfold rote_vt_create; rw [if_neg hn], rfl, rfl, ?_, ?_,
      rfl, rfl, rfl, rfl, rfl, rfl, rfl⟩
    · simp only [List.length_replicate]
      omega
    · intro row hrow
      have hrow2 := List.eq_of_mem_replicate hrow
      subst hrow2
      refine ⟨?_, ?_⟩
      · simp only [List.length_replicate]
        omega
      · intro c hcell
        exact List.eq_of_mem_replicate hcell
  · intro heap2
    unfold rote_vt_create
    by_cases h : rows ≤ 0 ∨ cols ≤ 0
    · rw [if_pos h, if_pos h]
    · rw [if_neg h, if_neg h]
      rfl

/-- Instance of C1 at `rows = 2`, `cols = 3`. -/
theorem rote_vt_create_spec_witness :
    ∃ rt, rote_vt_create 2 3 (fun _ => false) = some rt ∧
      rt.rows = 2 ∧ rt.cols = 3 ∧
      (rt.cells.length : Int) = 2 ∧
      (∀ row ∈ rt.cells, (row.length : Int) = 3 ∧ ∀ c ∈ row, c = ⟨0x20, 0x70⟩) ∧
      rt.crow = 0 ∧ rt.ccol = 0 ∧ rt.curattr = 0x70 ∧
      rt.pd.scrolltop = 0 ∧ rt.pd.scrollbottom = 2 - 1 ∧
      rt.pd.pty = -1 ∧ rt.childpid = 0 :=
  (rote_vt_create_spec 2 3 (fun _ => false)).2.1 (by decide) (by decide)

/-- C9: at `rows = 1`, `cols = 1` the dirty-flag array has one entry, that entry is whatever
the allocated block held, and two calls that differ only in that block return terminals
with different dirty flags. -/
theorem rote_vt_create_line_dirty_uninitialised :
    (rote_vt_create 1 1 (fun _ => true)).map RoteTerm.line_dirty = some [true] ∧
    (rote_vt_create 1 1 (fun _ => false)).map RoteTerm.line_dirty = some [false] ∧
    rote_vt_create 1 1 (fun _ => true) ≠ rote_vt_create 1 1 (fun _ => false) := by
  refine ⟨by decide, by decide, by decide⟩

/-! ## The process handle -/

/-- C7: `rote_vt_forsake_child` ends with descriptor `-1` and child `0`, leaves every other
field alone, closes the old descriptor exactly when it was non-negative, and a second call
changes neither terminal nor world. -/
theorem rote_vt_forsake_child_spec {κ : Type} (K : Kernel κ) (rt : RoteTerm) (w : World κ) :
    (rote_vt_forsake_child K rt w).1.pd.pty = -1 ∧
    (rote_vt_forsake_child K rt w).1.childpid = 0 ∧
    (rote_vt_forsake_child K rt w).1.cells = rt.cells ∧
    (rote_vt_forsake_child K rt w).1.line_dirty = rt.line_dirty ∧
    (rote_vt_forsake_child K rt w).1.crow = rt.crow ∧
    (rote_vt_forsake_child K rt w).1.ccol = rt.ccol ∧
    (rote_vt_forsake_child K rt w).1.curattr = rt.curattr ∧
    (rote_vt_forsake_child K rt w).1.pd.scrolltop = rt.pd.scrolltop ∧
    (rote_vt_forsake_child K rt w).1.pd.scrollbottom = rt.pd.scrollbottom ∧
    (rote_vt_forsake_child K rt w).1.rows = rt.rows ∧
    (rote_vt_forsake_child K rt w).1.cols = rt.cols ∧
    (rote_vt_forsake_child K rt w).1.pd.handler = rt.pd.handler ∧
    (0 ≤ rt.pd.pty →
      (rote_vt_forsake_child K rt w).2.log = w.log ++ [Event.close rt.pd.pty] ∧
      (rote_vt_forsake_child K rt w).2.kern = K.close w.kern rt.pd.pty) ∧
    (rt.pd.pty < 0 → (rote_vt_forsake_child K rt w).2 = w) ∧
    rote_vt_forsake_child K (rote_vt_forsake_child K rt w).1 (rote_vt_forsake_child K rt w).2
      = rote_vt_forsake_child K rt w := by
  refine ⟨rfl, rfl, rfl, rfl, rfl, rfl, rfl, rfl, rfl, rfl, rfl, rfl, ?_, ?_, ?_⟩
  · intro h
    have h2 : rt.pd.pty ≥ 0 := h
    simp only [rote_vt_forsake_child, if_pos h2, and_self]
  · intro h
    have h2 : ¬ rt.pd.pty ≥ 0 := by omega
    simp only [rote_vt_forsake_child, if_neg h2]
  · have h2 : ¬ ((-1 : Int) ≥ 0) := by decide
    simp only [rote_vt_forsake_child, if_neg h2]

/-- Instance of C7 on a terminal attached to descriptor 3: exactly that descriptor is
closed. -/
theorem rote_vt_forsake_child_spec_witness :
    (rote_vt_forsake_child sampleKernel sampleAttached ⟨0, []⟩).2.log = [] ++ [Event.close 3] ∧
    (rote_vt_forsake_child sampleKernel sampleAttached ⟨0, []⟩).2.kern
      = sampleKernel.close 0 3 :=
  (rote_vt_forsake_child_spec sampleKernel sampleAttached ⟨0, []⟩).2.2.2.2.2.2.2.2.2.2.2.2.1
    (by decide)

/-- C8 as stated fails: on a terminal with descriptor 3 and child 42 attached, when the system
`forkpty` fails without storing a descriptor, `rote_vt_forkpty` returns `-1` and the handle
still is `(3, 42)`, not the no-process state. -/
theorem rote_vt_forkpty_failure_keeps_attached :
    (failingKernel.forkpty () 1 1).1 = ⟨-1, none⟩ ∧
    rote_vt_forkpty failingKernel sampleAttached [108, 115] ⟨(), []⟩
      = ForkOutcome.returned (-1) sampleAttached ⟨(), [Event.forkpty 1 1 (-1)]⟩ ∧
    sampleAttached.pd.pty = 3 ∧ sampleAttached.childpid = 42 ∧
    ¬ (∃ rt1 w1, rote_vt_forkpty failingKernel sampleAttached [108, 115] ⟨(), []⟩
        = ForkOutcome.returned (-1) rt1 w1 ∧ rt1.pd.pty < 0 ∧ rt1.childpid = 0) := by
  refine ⟨rfl, rfl, rfl, rfl, ?_⟩
  rintro ⟨rt1, w1, he, hp, _⟩
  have hev : rote_vt_forkpty failingKernel sampleAttached [108, 115] ⟨(), []⟩
      = ForkOutcome.returned (-1) sampleAttached ⟨(), [Event.forkpty 1 1 (-1)]⟩ := rfl
  rw [hev] at he
  have hrt : sampleAttached = rt1 := (ForkOutcome.returned.inj he).2.1
  rw [← hrt] at hp
  revert hp
  decide

/-- C8, amended: when the system `forkpty` fails without storing a descriptor,
`rote_vt_forkpty` returns `-1` and leaves the terminal as it was; so a handle in the
no-process state before the call is in the no-process state after it. -/
theorem rote_vt_forkpty_failure {κ : Type} (K : Kernel κ) (rt : RoteTerm)
    (command : List Byte) (w : World κ)
    (hret : (K.forkpty w.kern (rt.rows % 65536) (rt.cols % 65536)).1.ret < 0)
    (hfd : (K.forkpty w.kern (rt.rows % 65536) (rt.cols % 65536)).1.amaster = none) :
    (∃ w1, rote_vt_forkpty K rt command w = ForkOutcome.returned (-1) rt w1) ∧
    (rt.pd.pty < 0 ∧ rt.childpid = 0 →
      ∃ rt1 w1, rote_vt_forkpty K rt command w = ForkOutcome.returned (-1) rt1 w1 ∧
        rt1.pd.pty < 0 ∧ rt1.childpid = 0) := by
  have key : ∃ w1, rote_vt_forkpty K rt command w = ForkOutcome.returned (-1) rt w1 := by
    simp only [rote_vt_forkpty, hfd, if_pos hret]
    exact ⟨_, rfl⟩
  refine ⟨key, ?_⟩
  intro hs
  obtain ⟨w1, hw1⟩ := key
  exact ⟨rt, w1, hw1, hs.1, hs.2⟩

/-- Instance of the amended C8: a failed attach on a fresh terminal. -/
theorem rote_vt_forkpty_failure_witness :
    ∃ rt1 w1, rote_vt_forkpty failingKernel sampleFresh [] ⟨(), []⟩
        = ForkOutcome.returned (-1) rt1 w1 ∧ rt1.pd.pty < 0 ∧ rt1.childpid = 0 :=
  (rote_vt_forkpty_failure failingKernel sampleFresh [] ⟨(), []⟩ (by decide) (by decide)).2
    (by decide)

/-! ## The pump -/

theorem rote_vt_update_loop_log {κ : Type} (K : Kernel κ) (interp : Interp) :
    ∀ (n : Nat) (rt : RoteTerm) (w : World κ) (s : RoteTerm × World κ),
      rote_vt_update_loop K interp n rt w = some s →
      ∃ evs, s.2.log = w.log ++ evs ∧
        selectCount evs ≤ n ∧ readCount evs ≤ n ∧ injectCount evs ≤ n ∧
        readsAtMost 512 evs = true := by
  intro n
  induction n with
  | zero =>
    intro rt w s h
    simp only [rote_vt_update_loop] at h
    have hs := Option.some.inj h
    rw [← hs]
    exact ⟨[], by simp, by simp [selectCount], by simp [readCount],
      by simp [injectCount], by simp [readsAtMost]⟩
  | succ n ih =>
    intro rt w s h
    unfold rote_vt_update_loop at h
    by_cases hfd : rt.pd.pty < 0 ∨ FD_SETSIZE ≤ rt.pd.pty
    · rw [if_pos hfd] at h
      exact Option.noConfusion h
    · rw [if_neg hfd] at h
      by_cases hsel : (K.select w.kern rt.pd.pty).1 ≤ 0
      · simp only [if_pos hsel] at h
        have hs := Option.some.inj h
        rw [← hs]
        refine ⟨[Event.select rt.pd.pty (K.select w.kern rt.pd.pty).1], rfl, ?_, ?_, ?_, ?_⟩
        · simp [selectCount]
        · simp [readCount]
        · simp [injectCount]
        · simp [readsAtMost]
      · by_cases hrd : (K.read (K.select w.kern rt.pd.pty).2 rt.pd.pty 512).1.ret ≤ 0
        · simp only [if_neg hsel, if_pos hrd] at h
          have hs := Option.some.inj h
          rw [← hs]
          refine ⟨[Event.select rt.pd.pty (K.select w.kern rt.pd.pty).1,
            Event.read rt.pd.pty 512
              (K.read (K.select w.kern rt.pd.pty).2 rt.pd.pty 512).1.ret],
            ?_, ?_, ?_, ?_, ?_⟩
          · simp only [List.append_assoc, List.singleton_append]
          · simp [selectCount]
          · simp [readCount]
          · simp [injectCount]
          · simp [readsAtMost]
        · simp only [if_neg hsel, if_neg hrd] at h
          obtain ⟨evs, hlog, h1, h2, h3, h4⟩ := ih _ _ s h
          refine ⟨[Event.select rt.pd.pty (K.select w.kern rt.pd.pty).1,
            Event.read rt.pd.pty 512
              (K.read (K.select w.kern rt.pd.pty).2 rt.pd.pty 512).1.ret,
            Event.inject ((K.read (K.select w.kern rt.pd.pty).2 rt.pd.pty 512).1.buf.take
              (K.read (K.select w.kern rt.pd.pty).2 rt.pd.pty 512).1.ret.toNat)] ++ evs,
            ?_, ?_, ?_, ?_, ?_⟩
          · rw [hlog]
            simp [rote_vt_inject, List.append_assoc]
          · simp [selectCount]
            omega
          · simp [readCount]
            omega
          · simp [injectCount]
            omega
          · simp [readsAtMost, h4]

/-- With a descriptor inside `0 ≤ fd < FD_SETSIZE` and an interpreter that leaves it alone,
the pump loop returns, for any kernel. -/
theorem rote_vt_update_loop_returns {κ : Type} (K : Kernel κ) (interp : Interp)
    (hk : KeepsPty interp) :
    ∀ (n : Nat) (rt : RoteTerm) (w : World κ), 0 ≤ rt.pd.pty → rt.pd.pty < FD_SETSIZE →
      ∃ s, rote_vt_update_loop K interp n rt w = some s ∧ s.1.pd.pty = rt.pd.pty := by
  intro n
  induction n with
  | zero =>
    intro rt w _ _
    exact ⟨(rt, w), rfl, rfl⟩
  | succ n ih =>
    intro rt w hlo hhi
    have hfd : ¬ (rt.pd.pty < 0 ∨ FD_SETSIZE ≤ rt.pd.pty) := by omega
    unfold rote_vt_update_loop
    rw [if_neg hfd]
    by_cases hsel : (K.select w.kern rt.pd.pty).1 ≤ 0
    · simp only [if_pos hsel]
      exact ⟨_, rfl, rfl⟩
    · by_cases hrd : (K.read (K.select w.kern rt.pd.pty).2 rt.pd.pty 512).1.ret ≤ 0
      · simp only [if_neg hsel, if_pos hrd]
        exact ⟨_, rfl, rfl⟩
      · simp only [if_neg hsel, if_neg hrd, rote_vt_inject]
        have hp := hk rt ((K.read (K.select w.kern rt.pd.pty).2 rt.pd.pty 512).1.buf.take
          (K.read (K.select w.kern rt.pd.pty).2 rt.pd.pty 512).1.ret.toNat)
        obtain ⟨s, hs, hpty⟩ := ih
          (interp rt ((K.read (K.select w.kern rt.pd.pty).2 rt.pd.pty 512).1.buf.take
            (K.read (K.select w.kern rt.pd.pty).2 rt.pd.pty 512).1.ret.toNat))
          ⟨(K.read (K.select w.kern rt.pd.pty).2 rt.pd.pty 512).2,
            w.log ++ [Event.select rt.pd.pty (K.select w.kern rt.pd.pty).1] ++
              [Event.read rt.pd.pty 512
                (K.read (K.select w.kern rt.pd.pty).2 rt.pd.pty 512).1.ret] ++
              [Event.inject ((K.read (K.select w.kern rt.pd.pty).2 rt.pd.pty 512).1.buf.take
                (K.read (K.select w.kern rt.pd.pty).2 rt.pd.pty 512).1.ret.toNat)]⟩
          (by rw [hp]; exact hlo) (by rw [hp]; exact hhi)
        exact ⟨s, hs, hpty.trans hp⟩

/-- C2 as stated fails: a terminal attached to descriptor 1103 (child 42) is a session with an
attached process, the interpreter leaves the descriptor alone, and `rote_vt_update` has no
defined result there: its first `FD_SET` is out of range. -/
theorem rote_vt_update_undefined_above_fd_setsize :
    0 ≤ sampleHigh.pd.pty ∧ 0 < sampleHigh.childpid ∧ FD_SETSIZE ≤ sampleHigh.pd.pty ∧
    rote_vt_update sampleKernel sampleInterp sampleHigh ⟨0, []⟩ = none ∧
    ¬ ∃ s evs, rote_vt_update sampleKernel sampleInterp sampleHigh ⟨0, []⟩ = some s ∧
        s.2.log = [] ++ evs ∧ selectCount evs ≤ 5 ∧ readCount evs ≤ 5 ∧
        readsAtMost 512 evs = true ∧ injectCount evs ≤ 5 := by
  have hnone : rote_vt_update sampleKernel sampleInterp sampleHigh ⟨0, []⟩ = none := rfl
  refine ⟨by decide, by decide, by decide, hnone, ?_⟩
  rintro ⟨s, evs, hs, _⟩
  rw [hnone] at hs
  exact Option.noConfusion hs

/-- C2, amended: when the descriptor is below `FD_SETSIZE` and the interpreter leaves it
alone, one call of `rote_vt_update` returns, whatever the kernel does, having appended to the
log at most 5 readiness checks, at most 5 reads, each asking for at most 512 bytes, and at
most 5 calls of `rote_vt_inject`. -/
theorem rote_vt_update_bounded {κ : Type} (K : Kernel κ) (interp : Interp) (rt : RoteTerm)
    (w : World κ) (hk : KeepsPty interp) (hfd : rt.pd.pty < FD_SETSIZE) :
    ∃ s evs, rote_vt_update K interp rt w = some s ∧ s.2.log = w.log ++ evs ∧
      selectCount evs ≤ 5 ∧ readCount evs ≤ 5 ∧ readsAtMost 512 evs = true ∧
      injectCount evs ≤ 5 := by
  unfold rote_vt_update
  by_cases h : rt.pd.pty < 0
  · rw [if_pos h]
    exact ⟨(rt, w), [], rfl, by simp, by simp [selectCount], by simp [readCount],
      by simp [readsAtMost], by simp [injectCount]⟩
  · rw [if_neg h]
    obtain ⟨s, hs, _⟩ := rote_vt_update_loop_returns K interp hk ROTE_VT_UPDATE_ITERATIONS
      rt w (by omega) hfd
    obtain ⟨evs, hlog, h1, h2, h3, h4⟩ :=
      rote_vt_update_loop_log K interp ROTE_VT_UPDATE_ITERATIONS rt w s hs
    exact ⟨s, evs, hs, hlog, h1, h2, h4, h3⟩

/-- Instance of the amended C2: a pump of descriptor 3 on a kernel that is always ready. -/
theorem rote_vt_update_bounded_witness :
    ∃ s evs, rote_vt_update sampleKernel sampleInterp sampleAttached ⟨0, []⟩ = some s ∧
      s.2.log = [] ++ evs ∧
      selectCount evs ≤ 5 ∧ readCount evs ≤ 5 ∧ readsAtMost 512 evs = true ∧
      injectCount evs ≤ 5 :=
  rote_vt_update_bounded sampleKernel sampleInterp sampleAttached ⟨0, []⟩
    (fun _ _ => rfl) (by decide)

/-- C5: without a process (`pty < 0`) `rote_vt_update` changes neither terminal nor world, and
`rote_vt_write` returns after exactly one call of `rote_vt_inject`, with exactly the payload,
and no system call; a created terminal and a forsaken one are in that state. -/
theorem no_process_update_and_write {κ : Type} (K : Kernel κ) (interp : Interp) :
    (∀ (rt : RoteTerm) (w : World κ), rt.pd.pty < 0 →
      rote_vt_update K interp rt w = some (rt, w) ∧
      ∀ (fuel : Nat) (data : List Byte),
        (rote_vt_write K interp fuel rt data w).returned = true ∧
        (rote_vt_write K interp fuel rt data w).rt = interp rt data ∧
        (rote_vt_write K interp fuel rt data w).world.kern = w.kern ∧
        (rote_vt_write K interp fuel rt data w).world.log = w.log ++ [Event.inject data]) ∧
    (∀ (rows cols : Int) (heap : Nat → Bool) (rt : RoteTerm),
      rote_vt_create rows cols heap = some rt → rt.pd.pty < 0) ∧
    (∀ (rt : RoteTerm) (w : World κ), (rote_vt_forsake_child K rt w).1.pd.pty < 0) := by
  refine ⟨?_, ?_, ?_⟩
  · intro rt w h
    refine ⟨by simp only [rote_vt_update, if_pos h], ?_⟩
    intro fuel data
    simp only [rote_vt_write, if_pos h, rote_vt_inject, and_self]
  · intro rows cols heap rt hc
    unfold rote_vt_create at hc
    by_cases h : rows ≤ 0 ∨ cols ≤ 0
    · rw [if_pos h] at hc
      exact Option.noConfusion hc
    · rw [if_neg h] at hc
      have hrt := Option.some.inj hc
      rw [← hrt]
      show (-1 : Int) < 0
      decide
  · intro rt w
    show (-1 : Int) < 0
    decide

/-- Instance of C5: a write of `hi` to a fresh terminal. -/
theorem no_process_update_and_write_witness :
    rote_vt_update sampleKernel sampleInterp sampleFresh ⟨0, []⟩
      = some (sampleFresh, ⟨0, []⟩) ∧
    ∀ (fuel : Nat) (data : List Byte),
      (rote_vt_write sampleKernel sampleInterp fuel sampleFresh data ⟨0, []⟩).returned = true ∧
      (rote_vt_write sampleKernel sampleInterp fuel sampleFresh data ⟨0, []⟩).rt
        = sampleInterp sampleFresh data ∧
      (rote_vt_write sampleKernel sampleInterp fuel sampleFresh data ⟨0, []⟩).world.kern = 0 ∧
      (rote_vt_write sampleKernel sampleInterp fuel sampleFresh data ⟨0, []⟩).world.log
        = [] ++ [Event.inject data] :=
  (no_process_update_and_write sampleKernel sampleInterp).1 sampleFresh ⟨0, []⟩ (by decide)

/-! ## The write path -/

theorem drop_drop_take_length (l : List Byte) (n m : Nat) :
    (l.drop n).drop m = l.drop ((l.take n).length + m) := by
  rw [List.drop_drop, List.length_take]
  by_cases h : n ≤ l.length
  · rw [min_eq_left h]
  · rw [List.drop_eq_nil_of_le (by omega), List.drop_eq_nil_of_le (by omega)]

theorem take_append_isPrefixOf (l a : List Byte) (n : Nat) (h : a <+: l.drop n) :
    l.take n ++ a <+: l := by
  obtain ⟨t, ht⟩ := h
  exact ⟨t, by rw [List.append_assoc, ht, List.take_append_drop]⟩

theorem writeFailed_split (evs : List Event) (h : writeFailed evs = true) :
    ∃ pre fd off ret post, evs = pre ++ Event.write fd off ret :: post ∧ ret < 0 := by
  induction evs with
  | nil => simp [writeFailed] at h
  | cons e es ih =>
    by_cases hes : writeFailed es = true
    · obtain ⟨pre, fd, off, ret, post, heq, hneg⟩ := ih hes
      exact ⟨e :: pre, fd, off, ret, post, by rw [heq, List.cons_append], hneg⟩
    · cases e with
      | write fd off ret =>
        simp only [writeFailed, Bool.or_eq_true, decide_eq_true_eq] at h
        rcases h with h | h
        · exact ⟨[], fd, off, ret, es, rfl, h⟩
        · exact absurd h hes
      | select _ _ => exact absurd (by simpa [writeFailed] using h) hes
      | read _ _ _ => exact absurd (by simpa [writeFailed] using h) hes
      | close _ => exact absurd (by simpa [writeFailed] using h) hes
      | forkpty _ _ _ => exact absurd (by simpa [writeFailed] using h) hes
      | inject _ => exact absurd (by simpa [writeFailed] using h) hes

/-- What the loop of `rote_vt_write` appends to the log, for any kernel and any budget. -/
theorem rote_vt_write_loop_log {κ : Type} (K : Kernel κ) (interp : Interp) :
    ∀ (fuel : Nat) (rt : RoteTerm) (cur : List Byte) (w : World κ),
      ∃ evs, (rote_vt_write_loop K interp fuel rt cur w).world.log = w.log ++ evs ∧
        (∀ pre fd off ret post, evs = pre ++ Event.write fd off ret :: post →
          fd = rt.pd.pty ∧ off = cur.drop (accepted pre).length ∧
          (ret < 0 → post = [Event.inject errormsg]) ∧
          writeFailed pre = false ∧ injectCount pre = 0 ∧ writeCount pre = pre.length ∧
          off ≠ [] ∧ ∃ k, ret = (K.write k fd off).1) ∧
        accepted evs <+: cur ∧
        (writeFailed evs = true →
          (rote_vt_write_loop K interp fuel rt cur w).returned = true ∧
          (rote_vt_write_loop K interp fuel rt cur w).rt = interp rt errormsg ∧
          injectCount evs = 1) ∧
        (writeFailed evs = false →
          injectCount evs = 0 ∧ writeCount evs = evs.length ∧
          (rote_vt_write_loop K interp fuel rt cur w).rt = rt ∧
          ((rote_vt_write_loop K interp fuel rt cur w).returned = true →
            accepted evs = cur)) := by
  intro fuel
  induction fuel with
  | zero =>
    intro rt cur w
    refine ⟨[], by simp [rote_vt_write_loop], ?_, ?_, ?_, ?_⟩
    · intro pre fd off ret post h
      simp at h
    · simp [accepted]
    · intro h
      simp [writeFailed] at h
    · intro _
      refine ⟨by simp [injectCount], by simp [writeCount], by simp [rote_vt_write_loop], ?_⟩
      intro hr
      simp only [rote_vt_write_loop, decide_eq_true_eq] at hr
      simp [accepted, List.length_eq_zero.mp hr]
  | succ fuel ih =>
    intro rt cur w
    unfold rote_vt_write_loop
    by_cases hlen : cur.length > 0
    · simp only [if_pos hlen]
      by_cases hneg : (K.write w.kern rt.pd.pty cur).1 < 0
      · simp only [if_pos hneg, rote_vt_inject]
        refine ⟨[Event.write rt.pd.pty cur (K.write w.kern rt.pd.pty cur).1,
          Event.inject errormsg], by simp, ?_, ?_, ?_, ?_⟩
        · intro pre fd off ret post h
          cases pre with
          | nil =>
            simp only [List.nil_append, List.cons.injEq, Event.write.injEq] at h
            obtain ⟨⟨h1, h2, h3⟩, h4⟩ := h
            refine ⟨h1.symm, by simp [accepted, h2], fun _ => h4.symm, by simp [writeFailed],
              by simp [injectCount], by simp [writeCount], ?_, ?_⟩
            · rw [← h2]
              exact List.ne_nil_of_length_pos hlen
            · exact ⟨w.kern, by rw [← h1, ← h2, ← h3]⟩
          | cons e pre2 =>
            cases pre2 with
            | nil => simp at h
            | cons e2 pre3 => simp at h
        · have h0 : (K.write w.kern rt.pd.pty cur).1.toNat = 0 := by omega
          simp [accepted, h0]
        · intro _
          exact ⟨trivial, trivial, by simp [injectCount]⟩
        · intro h
          simp [writeFailed, hneg] at h
      · simp only [if_neg hneg]
        obtain ⟨evs, hlog, hdec, hpre, hfail, hok⟩ := ih rt
          (cur.drop (K.write w.kern rt.pd.pty cur).1.toNat)
          ⟨(K.write w.kern rt.pd.pty cur).2,
            w.log ++ [Event.write rt.pd.pty cur (K.write w.kern rt.pd.pty cur).1]⟩
        refine ⟨Event.write rt.pd.pty cur (K.write w.kern rt.pd.pty cur).1 :: evs,
          by rw [hlog]; simp, ?_, ?_, ?_, ?_⟩
        · intro pre fd off ret post h
          cases pre with
          | nil =>
            simp only [List.nil_append, List.cons.injEq, Event.write.injEq] at h
            obtain ⟨⟨h1, h2, h3⟩, _⟩ := h
            refine ⟨h1.symm, by simp [accepted, h2], ?_, by simp [writeFailed],
              by simp [injectCount], by simp [writeCount], ?_, ?_⟩
            · intro hr
              rw [← h3] at hr
              exact absurd hr hneg
            · rw [← h2]
              exact List.ne_nil_of_length_pos hlen
            · exact ⟨w.kern, by rw [← h1, ← h2, ← h3]⟩
          | cons e pre2 =>
            simp only [List.cons_append, List.cons.injEq] at h
            obtain ⟨h1, h2⟩ := h
            obtain ⟨g1, g2, g3, g4, g5, g6, g7, g8⟩ := hdec pre2 fd off ret post h2
            subst h1
            refine ⟨g1, ?_, g3, by simp [writeFailed, hneg, g4], by simp [injectCount, g5],
              by simp [writeCount, g6], g7, g8⟩
            rw [g2]
            simp only [accepted, List.length_append]
            exact drop_drop_take_length cur _ _
        · simp only [accepted]
          exact take_append_isPrefixOf cur _ _ hpre
        · intro h
          have h2 : writeFailed evs = true := by simpa [writeFailed, hneg] using h
          obtain ⟨f1, f2, f3⟩ := hfail h2
          exact ⟨f1, f2, by simp [injectCount, f3]⟩
        · intro h
          have h2 : writeFailed evs = false := by simpa [writeFailed, hneg] using h
          obtain ⟨f1, f2, f3, f4⟩ := hok h2
          refine ⟨by simp [injectCount, f1], by simp [writeCount, f2], f3, ?_⟩
          intro hr
          simp only [accepted, f4 hr, List.take_append_drop]
    · simp only [if_neg hlen]
      have hnil : cur = [] := List.length_eq_zero.mp (by omega)
      refine ⟨[], by simp, ?_, ?_, ?_, ?_⟩
      · intro pre fd off ret post h
        simp at h
      · simp [accepted]
      · intro h
        simp [writeFailed] at h
      · intro _
        exact ⟨by simp [injectCount], by simp [writeCount], trivial,
          fun _ => by simp [accepted, hnil]⟩

/-- With a descriptor that takes at least one byte per attempt, the loop of
`rote_vt_write` is over within as many iterations as there are bytes. -/
theorem rote_vt_write_loop_returns {κ : Type} (K : Kernel κ) (interp : Interp)
    (hw : ∀ k fd (d : List Byte), d ≠ [] → 1 ≤ (K.write k fd d).1) :
    ∀ (fuel : Nat) (rt : RoteTerm) (cur : List Byte) (w : World κ), cur.length ≤ fuel →
      (rote_vt_write_loop K interp fuel rt cur w).returned = true := by
  intro fuel
  induction fuel with
  | zero =>
    intro rt cur w h
    simp only [rote_vt_write_loop, decide_eq_true_eq]
    omega
  | succ fuel ih =>
    intro rt cur w h
    unfold rote_vt_write_loop
    by_cases hlen : cur.length > 0
    · have h1 := hw w.kern rt.pd.pty cur (List.ne_nil_of_length_pos hlen)
      have hneg : ¬ (K.write w.kern rt.pd.pty cur).1 < 0 := by omega
      simp only [if_pos hlen, if_neg hneg]
      apply ih
      rw [List.length_drop]
      omega
    · simp only [if_neg hlen]

/-- C4: with a process attached and a descriptor whose every write takes at least 1 and at
most `k` bytes of what it is offered, `rote_vt_write` returns within `len` iterations; the
log gains only writes, never a call of `rote_vt_inject`; the bytes taken are exactly the
payload; and every attempt is offered exactly the part of the payload not yet taken. -/
theorem rote_vt_write_transmits_all {κ : Type} (K : Kernel κ) (interp : Interp)
    (rt : RoteTerm) (data : List Byte) (w : World κ) (k : Nat) (fuel : Nat)
    (hpty : 0 ≤ rt.pd.pty)
    (hw : ∀ s fd (d : List Byte), d ≠ [] →
      1 ≤ (K.write s fd d).1 ∧ (K.write s fd d).1 ≤ ((min k d.length : Nat) : Int))
    (hfuel : data.length ≤ fuel) :
    (rote_vt_write K interp fuel rt data w).returned = true ∧
    (rote_vt_write K interp fuel rt data w).rt = rt ∧
    ∃ evs, (rote_vt_write K interp fuel rt data w).world.log = w.log ++ evs ∧
      accepted evs = data ∧ injectCount evs = 0 ∧ writeCount evs = evs.length ∧
      ∀ pre fd off ret post, evs = pre ++ Event.write fd off ret :: post →
        fd = rt.pd.pty ∧ off = data.drop (accepted pre).length ∧
        1 ≤ ret ∧ ret ≤ ((min k off.length : Nat) : Int) := by
  have hnp : ¬ rt.pd.pty < 0 := by omega
  have hret := rote_vt_write_loop_returns K interp (fun s fd d hd => (hw s fd d hd).1)
    fuel rt data w hfuel
  obtain ⟨evs, hlog, hdec, _, _, hok⟩ := rote_vt_write_loop_log K interp fuel rt data w
  have hbound : ∀ pre fd off ret post, evs = pre ++ Event.write fd off ret :: post →
      1 ≤ ret ∧ ret ≤ ((min k off.length : Nat) : Int) := by
    intro pre fd off ret post h
    obtain ⟨_, _, _, _, _, _, hne, s, hs⟩ := hdec pre fd off ret post h
    rw [hs]
    exact hw s fd off hne
  have hnf : writeFailed evs = false := by
    by_contra hc
    obtain ⟨pre, fd, off, ret, post, heq, hneg⟩ :=
      writeFailed_split evs (by simpa using hc)
    have := (hbound pre fd off ret post heq).1
    omega
  obtain ⟨f1, f2, f3, f4⟩ := hok hnf
  simp only [rote_vt_write, if_neg hnp]
  refine ⟨hret, f3, evs, hlog, f4 hret, f1, f2, ?_⟩
  intro pre fd off ret post h
  obtain ⟨g1, g2, _⟩ := hdec pre fd off ret post h
  exact ⟨g1, g2, hbound pre fd off ret post h⟩

/-- Instance of C4: three bytes through a descriptor that takes one byte per `write`. -/
theorem rote_vt_write_transmits_all_witness :
    (rote_vt_write sampleKernel sampleInterp 3 sampleAttached [104, 105, 10] ⟨0, []⟩).returned
      = true ∧
    (rote_vt_write sampleKernel sampleInterp 3 sampleAttached [104, 105, 10] ⟨0, []⟩).rt
      = sampleAttached ∧
    ∃ evs,
      (rote_vt_write sampleKernel sampleInterp 3 sampleAttached [104, 105, 10] ⟨0, []⟩).world.log
        = [] ++ evs ∧
      accepted evs = [104, 105, 10] ∧ injectCount evs = 0 ∧ writeCount evs = evs.length ∧
      ∀ pre fd off ret post, evs = pre ++ Event.write fd off ret :: post →
        fd = sampleAttached.pd.pty ∧ off = [104, 105, 10].drop (accepted pre).length ∧
        1 ≤ ret ∧ ret ≤ ((min 1 off.length : Nat) : Int) :=
  rote_vt_write_transmits_all sampleKernel sampleInterp sampleAttached [104, 105, 10] ⟨0, []⟩
    1 3 (by decide)
    (by
      intro s fd d hd
      have hpos : 0 < d.length := List.length_pos.mpr hd
      have hmin : min 1 d.length = 1 := by omega
      simp only [sampleKernel, hmin]
      decide)
    (by decide)

/-- When attempt number `j` of the descriptor is the first to fail, the loop of
`rote_vt_write` makes exactly `j` successful writes, the failing one, and one call of
`rote_vt_inject` with `errormsg`, and is over. -/
theorem rote_vt_write_loop_error {κ : Type} (K : Kernel κ) (interp : Interp) :
    ∀ (j fuel : Nat) (rt : RoteTerm) (cur : List Byte) (w : World κ),
      attemptErrors K rt.pd.pty j w.kern cur = true → j < fuel →
      (rote_vt_write_loop K interp fuel rt cur w).returned = true ∧
      (rote_vt_write_loop K interp fuel rt cur w).rt = interp rt errormsg ∧
      ∃ pre off ret,
        (rote_vt_write_loop K interp fuel rt cur w).world.log
          = w.log ++ pre ++ [Event.write rt.pd.pty off ret, Event.inject errormsg] ∧
        ret < 0 ∧ pre.length = j ∧ writeCount pre = j ∧ writeFailed pre = false ∧
        injectCount pre = 0 ∧ accepted pre <+: cur ∧
        off = cur.drop (accepted pre).length := by
  intro j
  induction j with
  | zero =>
    intro fuel rt cur w ha hf
    cases fuel with
    | zero => omega
    | succ f =>
      simp only [attemptErrors, Bool.and_eq_true, decide_eq_true_eq] at ha
      obtain ⟨hlen, hneg⟩ := ha
      unfold rote_vt_write_loop
      simp only [if_pos hlen, if_pos hneg, rote_vt_inject]
      refine ⟨trivial, trivial, [], cur, (K.write w.kern rt.pd.pty cur).1, by simp, hneg, rfl,
        by simp [writeCount], by simp [writeFailed], by simp [injectCount],
        by simp [accepted], by simp [accepted]⟩
  | succ j ih =>
    intro fuel rt cur w ha hf
    cases fuel with
    | zero => omega
    | succ f =>
      simp only [attemptErrors, Bool.and_eq_true, decide_eq_true_eq] at ha
      obtain ⟨⟨hlen, hnn⟩, hrest⟩ := ha
      have hneg : ¬ (K.write w.kern rt.pd.pty cur).1 < 0 := by omega
      unfold rote_vt_write_loop
      simp only [if_pos hlen, if_neg hneg]
      obtain ⟨r1, r2, pre, off, ret, hlog, hret, hl, hwc, hwf, hic, hacc, hoff⟩ :=
        ih f rt (cur.drop (K.write w.kern rt.pd.pty cur).1.toNat)
          ⟨(K.write w.kern rt.pd.pty cur).2,
            w.log ++ [Event.write rt.pd.pty cur (K.write w.kern rt.pd.pty cur).1]⟩
          hrest (by omega)
      refine ⟨r1, r2, Event.write rt.pd.pty cur (K.write w.kern rt.pd.pty cur).1 :: pre,
        off, ret, ?_, hret, by simp [hl], by simp [writeCount, hwc],
        by simp [writeFailed, hneg, hwf], by simp [injectCount, hic], ?_, ?_⟩
      · rw [hlog]
        simp [List.append_assoc]
      · simp only [accepted]
        exact take_append_isPrefixOf cur _ _ hacc
      · rw [hoff]
        simp only [accepted, List.length_append]
        exact drop_drop_take_length cur _ _

/-- When no attempt of the descriptor fails, the loop of `rote_vt_write` injects nothing. -/
theorem rote_vt_write_loop_no_error {κ : Type} (K : Kernel κ) (interp : Interp) :
    ∀ (fuel : Nat) (rt : RoteTerm) (cur : List Byte) (w : World κ),
      (∀ j, attemptErrors K rt.pd.pty j w.kern cur = false) →
      ∃ evs, (rote_vt_write_loop K interp fuel rt cur w).world.log = w.log ++ evs ∧
        injectCount evs = 0 ∧ writeFailed evs = false ∧
        (rote_vt_write_loop K interp fuel rt cur w).rt = rt := by
  intro fuel
  induction fuel with
  | zero =>
    intro rt cur w _
    exact ⟨[], by simp [rote_vt_write_loop], by simp [injectCount], by simp [writeFailed],
      by simp [rote_vt_write_loop]⟩
  | succ f ih =>
    intro rt cur w ha
    unfold rote_vt_write_loop
    by_cases hlen : cur.length > 0
    · have h0 := ha 0
      simp only [attemptErrors, hlen, decide_True, Bool.true_and, decide_eq_false_iff_not]
        at h0
      simp only [if_pos hlen, if_neg h0]
      have hrest : ∀ j, attemptErrors K rt.pd.pty j (K.write w.kern rt.pd.pty cur).2
          (cur.drop (K.write w.kern rt.pd.pty cur).1.toNat) = false := by
        intro j
        have hj := ha (j + 1)
        have hnn : 0 ≤ (K.write w.kern rt.pd.pty cur).1 := by omega
        simpa [attemptErrors, hlen, hnn] using hj
      obtain ⟨evs, hlog, hic, hwf, hrt⟩ := ih rt
        (cur.drop (K.write w.kern rt.pd.pty cur).1.toNat)
        ⟨(K.write w.kern rt.pd.pty cur).2,
          w.log ++ [Event.write rt.pd.pty cur (K.write w.kern rt.pd.pty cur).1]⟩ hrest
      exact ⟨Event.write rt.pd.pty cur (K.write w.kern rt.pd.pty cur).1 :: evs,
        by rw [hlog]; simp, by simp [injectCount, hic], by simp [writeFailed, h0, hwf], hrt⟩
    · simp only [if_neg hlen]
      exact ⟨[], by simp, by simp [injectCount], by simp [writeFailed], trivial⟩

/-- C6: with a process attached, if attempt number `j` of the descriptor is the first to
return a negative value (the descriptor being offered the payload and, after each range it
takes, the rest), then `rote_vt_write` returns within `j + 1` iterations, and what it added
to the log is exactly: `j` writes that did not fail, that failing write, and one call of
`rote_vt_inject` with the 27-byte text `errormsg`; nothing follows the failing write but
that call, nothing was injected before it, and the bytes taken before it are a leading part
of the payload. If no attempt of the descriptor fails, nothing is injected, however long
the call runs. -/
theorem rote_vt_write_error {κ : Type} (K : Kernel κ) (interp : Interp) (rt : RoteTerm)
    (data : List Byte) (w : World κ) (hpty : 0 ≤ rt.pd.pty) :
    (∀ j fuel, attemptErrors K rt.pd.pty j w.kern data = true → j < fuel →
      (rote_vt_write K interp fuel rt data w).returned = true ∧
      (rote_vt_write K interp fuel rt data w).rt = interp rt errormsg ∧
      ∃ pre off ret,
        (rote_vt_write K interp fuel rt data w).world.log
          = w.log ++ pre ++ [Event.write rt.pd.pty off ret, Event.inject errormsg] ∧
        ret < 0 ∧ pre.length = j ∧ writeCount pre = j ∧ writeFailed pre = false ∧
        injectCount pre = 0 ∧ accepted pre <+: data ∧
        off = data.drop (accepted pre).length) ∧
    (∀ fuel, (∀ j, attemptErrors K rt.pd.pty j w.kern data = false) →
      ∃ evs, (rote_vt_write K interp fuel rt data w).world.log = w.log ++ evs ∧
        injectCount evs = 0 ∧ writeFailed evs = false ∧
        (rote_vt_write K interp fuel rt data w).rt = rt) ∧
    errormsg.length = 27 ∧
    errormsg = [10, 40, 82, 79, 84, 69, 58, 32, 112, 116, 121, 32, 119, 114, 105, 116, 101,
      40, 41, 32, 101, 114, 114, 111, 114, 41, 10] := by
  have hnp : ¬ rt.pd.pty < 0 := by omega
  simp only [rote_vt_write, if_neg hnp]
  refine ⟨?_, ?_, by decide, by decide⟩
  · intro j fuel ha hf
    exact rote_vt_write_loop_error K interp j fuel rt data w ha hf
  · intro fuel ha
    exact rote_vt_write_loop_no_error K interp fuel rt data w ha

/-- Instance of C6: two bytes to descriptor 3 of a kernel whose `write` takes one byte and
then fails; the log is the accepted write, the failed write and the diagnostic. -/
theorem rote_vt_write_error_witness :
    ((rote_vt_write flakyKernel sampleInterp 2 sampleAttached [104, 105] ⟨0, []⟩).returned
        = true ∧
      (rote_vt_write flakyKernel sampleInterp 2 sampleAttached [104, 105] ⟨0, []⟩).rt
        = sampleInterp sampleAttached errormsg ∧
      ∃ pre off ret,
        (rote_vt_write flakyKernel sampleInterp 2 sampleAttached [104, 105] ⟨0, []⟩).world.log
          = [] ++ pre ++ [Event.write sampleAttached.pd.pty off ret, Event.inject errormsg] ∧
        ret < 0 ∧ pre.length = 1 ∧ writeCount pre = 1 ∧ writeFailed pre = false ∧
        injectCount pre = 0 ∧ accepted pre <+: [104, 105] ∧
        off = [104, 105].drop (accepted pre).length) ∧
    (rote_vt_write flakyKernel sampleInterp 2 sampleAttached [104, 105] ⟨0, []⟩).world.log
      = [Event.write 3 [104, 105] 1, Event.write 3 [105] (-1), Event.inject errormsg] :=
  ⟨(rote_vt_write_error flakyKernel sampleInterp sampleAttached [104, 105] ⟨0, []⟩
      (by decide)).1 1 2 (by decide) (by decide), by decide⟩

/-! ## Pumping a finite stream -/

/-- The size of the chunk the stream descriptor hands out at its `i`-th read. -/
theorem stream_chunk_pos (sched : Nat → Nat) (i : Nat) (l : List Byte) (h : l ≠ []) :
    1 ≤ (l.take (max 1 (min (sched i) 512))).length := by
  have hl : 0 < l.length := List.length_pos.mpr h
  rw [List.length_take]
  omega

/-- One iteration of the pump loop when no byte is pending. -/
theorem rote_vt_update_loop_stream_nil (sched : Nat → Nat) (rae : Bool) (interp : Interp)
    (n : Nat) (rt : RoteTerm) (w : World StreamFd) (hp : w.kern.pending = [])
    (hlo : 0 ≤ rt.pd.pty) (hhi : rt.pd.pty < FD_SETSIZE) :
    rote_vt_update_loop (streamKernel sched rae) interp (n + 1) rt w =
      if w.kern.eof = false ∨ rae = true then
        some (rt, ⟨⟨[], true, w.kern.reads + 1⟩,
          w.log ++ [Event.select rt.pd.pty 1] ++ [Event.read rt.pd.pty 512 0]⟩)
      else some (rt, ⟨w.kern, w.log ++ [Event.select rt.pd.pty 0]⟩) := by
  have hfd : ¬ (rt.pd.pty < 0 ∨ FD_SETSIZE ≤ rt.pd.pty) := by omega
  unfold rote_vt_update_loop
  rw [if_neg hfd]
  by_cases h : w.kern.eof = false ∨ rae = true
  · simp [streamKernel, hp, h]
  · simp [streamKernel, hp, h]

/-- One iteration of the pump loop when bytes are pending. -/
theorem rote_vt_update_loop_stream_cons (sched : Nat → Nat) (rae : Bool) (interp : Interp)
    (n : Nat) (rt : RoteTerm) (w : World StreamFd) (hp : w.kern.pending ≠ [])
    (hlo : 0 ≤ rt.pd.pty) (hhi : rt.pd.pty < FD_SETSIZE) :
    rote_vt_update_loop (streamKernel sched rae) interp (n + 1) rt w =
      rote_vt_update_loop (streamKernel sched rae) interp n
        (interp rt (w.kern.pending.take (max 1 (min (sched w.kern.reads) 512))))
        ⟨⟨w.kern.pending.drop (max 1 (min (sched w.kern.reads) 512)), w.kern.eof,
            w.kern.reads + 1⟩,
          w.log ++ [Event.select rt.pd.pty 1] ++
            [Event.read rt.pd.pty 512
              ((w.kern.pending.take (max 1 (min (sched w.kern.reads) 512))).length : Int)] ++
            [Event.inject (w.kern.pending.take (max 1 (min (sched w.kern.reads) 512)))]⟩ := by
  have hfd : ¬ (rt.pd.pty < 0 ∨ FD_SETSIZE ≤ rt.pd.pty) := by omega
  have hc := stream_chunk_pos sched w.kern.reads w.kern.pending hp
  have hsel : ((streamKernel sched rae).select w.kern rt.pd.pty) = (1, w.kern) := by
    simp [streamKernel, hp]
  have hrd : ((streamKernel sched rae).read w.kern rt.pd.pty 512) =
      (⟨((w.kern.pending.take (max 1 (min (sched w.kern.reads) 512))).length : Int),
          w.kern.pending.take (max 1 (min (sched w.kern.reads) 512))⟩,
        ⟨w.kern.pending.drop (max 1 (min (sched w.kern.reads) 512)), w.kern.eof,
          w.kern.reads + 1⟩) := by
    simp [streamKernel, hp]
  have h1 : ¬ ((1 : Int) ≤ 0) := by decide
  have h2 : ¬ (((w.kern.pending.take (max 1 (min (sched w.kern.reads) 512))).length : Int)
      ≤ 0) := by omega
  conv_lhs => unfold rote_vt_update_loop
  simp only [if_neg hfd, hsel, hrd, if_neg h1, if_neg h2, rote_vt_inject, Int.toNat_ofNat,
    List.take_length]

/-- What the pump loop does over the stream descriptor, for any number of iterations. -/
theorem rote_vt_update_loop_stream (sched : Nat → Nat) (rae : Bool) (interp : Interp)
    (hk : KeepsPty interp) :
    ∀ (n : Nat) (rt : RoteTerm) (w : World StreamFd), 0 ≤ rt.pd.pty →
      rt.pd.pty < FD_SETSIZE →
      ∃ s, rote_vt_update_loop (streamKernel sched rae) interp n rt w = some s ∧
        injected s.2.log ++ s.2.kern.pending = injected w.log ++ w.kern.pending ∧
        s.1.pd.pty = rt.pd.pty ∧
        (w.kern.pending = [] → injectCount s.2.log = injectCount w.log) ∧
        s.2.kern.pending.length ≤ w.kern.pending.length ∧
        (0 < n → w.kern.pending ≠ [] →
          s.2.kern.pending.length < w.kern.pending.length) ∧
        ((w.kern.eof = true → w.kern.pending = []) →
          s.2.kern.eof = true → s.2.kern.pending = []) ∧
        (w.kern.eof = true → s.2.kern.eof = true) ∧
        (0 < n → w.kern.pending = [] → s.2.kern.eof = true) := by
  intro n
  induction n with
  | zero =>
    intro rt w _ _
    refine ⟨(rt, w), rfl, ?_⟩
    exact ⟨rfl, rfl, fun _ => rfl, le_refl _, fun h => absurd h (by decide),
      fun h => h, fun h => h, fun h => absurd h (by decide)⟩
  | succ n ih =>
    intro rt w hlo hhi
    by_cases hp : w.kern.pending = []
    · rw [rote_vt_update_loop_stream_nil sched rae interp n rt w hp hlo hhi]
      by_cases h : w.kern.eof = false ∨ rae = true
      · simp only [if_pos h]
        refine ⟨_, rfl, ?_, rfl, ?_, ?_, ?_, ?_, ?_, ?_⟩
        · simp [injected_append, injected, hp]
        · intro _
          simp [injectCount_append, injectCount]
        · simp
        · intro _ hne
          exact absurd hp hne
        · intro _ _
          trivial
        · intro _
          trivial
        · intro _ _
          trivial
      · simp only [if_neg h]
        have he : w.kern.eof = true := by
          cases hb : w.kern.eof with
          | true => rfl
          | false => exact absurd (Or.inl hb) h
        refine ⟨_, rfl, ?_, rfl, ?_, le_refl _, ?_, ?_, ?_, ?_⟩
        · simp [injected_append, injected]
        · intro _
          simp [injectCount_append, injectCount]
        · intro _ hne
          exact absurd hp hne
        · intro _ _
          exact hp
        · intro h2
          exact h2
        · intro _ _
          exact he
    · rw [rote_vt_update_loop_stream_cons sched rae interp n rt w hp hlo hhi]
      have hc := stream_chunk_pos sched w.kern.reads w.kern.pending hp
      have hlen : 0 < w.kern.pending.length := List.length_pos.mpr hp
      have hpty := hk rt (w.kern.pending.take (max 1 (min (sched w.kern.reads) 512)))
      obtain ⟨s, hs, i1, i2, _, i4, _, i6, i7, _⟩ := ih
        (interp rt (w.kern.pending.take (max 1 (min (sched w.kern.reads) 512))))
        ⟨⟨w.kern.pending.drop (max 1 (min (sched w.kern.reads) 512)), w.kern.eof,
            w.kern.reads + 1⟩,
          w.log ++ [Event.select rt.pd.pty 1] ++
            [Event.read rt.pd.pty 512
              ((w.kern.pending.take (max 1 (min (sched w.kern.reads) 512))).length : Int)] ++
            [Event.inject (w.kern.pending.take (max 1 (min (sched w.kern.reads) 512)))]⟩
        (by rw [hpty]; exact hlo) (by rw [hpty]; exact hhi)
      have hdrop : (w.kern.pending.drop (max 1 (min (sched w.kern.reads) 512))).length
          < w.kern.pending.length := by
        rw [List.length_drop]
        omega
      refine ⟨s, hs, ?_, ?_, ?_, ?_, ?_, ?_, ?_, ?_⟩
      · rw [i1]
        simp [injected_append, injected, List.append_assoc, List.take_append_drop]
      · rw [i2]
        exact hpty
      · intro hnil
        exact absurd hnil hp
      · exact le_of_lt (lt_of_le_of_lt i4 hdrop)
      · intro _ _
        exact lt_of_le_of_lt i4 hdrop
      · intro hinv
        apply i6
        intro he
        exact absurd (hinv he) hp
      · intro he
        exact i7 he
      · intro _ hnil
        exact absurd hnil hp

/-- A further pump of a terminal that still has its descriptor runs the loop once more. -/
theorem pumpStream_succ (sched : Nat → Nat) (rae : Bool) (interp : Interp) (rt : RoteTerm)
    (stream : List Byte) (m : Nat) (s : RoteTerm × World StreamFd)
    (hs : pumpStream sched rae interp rt stream m = some s) (h : 0 ≤ s.1.pd.pty) :
    pumpStream sched rae interp rt stream (m + 1) =
      rote_vt_update_loop (streamKernel sched rae) interp ROTE_VT_UPDATE_ITERATIONS
        s.1 s.2 := by
  have hnp : ¬ s.1.pd.pty < 0 := by omega
  unfold pumpStream at hs
  simp only [pumpStream, pumpN, hs, rote_vt_update, if_neg hnp]

/-- What successive pumps do over the stream descriptor. -/
theorem pumpStream_invariant (sched : Nat → Nat) (rae : Bool) (interp : Interp)
    (hk : KeepsPty interp) (rt : RoteTerm) (stream : List Byte) (hpty : 0 ≤ rt.pd.pty)
    (hfd : rt.pd.pty < FD_SETSIZE) :
    ∀ m : Nat, ∃ s, pumpStream sched rae interp rt stream m = some s ∧
      injected s.2.log ++ s.2.kern.pending = stream ∧
      s.1.pd.pty = rt.pd.pty ∧
      (s.2.kern.eof = true → s.2.kern.pending = []) ∧
      s.2.kern.pending.length ≤ stream.length - m ∧
      (stream.length < m → s.2.kern.eof = true) := by
  intro m
  induction m with
  | zero =>
    refine ⟨(rt, ⟨⟨stream, false, 0⟩, []⟩), rfl, by simp [injected], rfl, ?_, by simp, ?_⟩
    · intro h
      simp at h
    · intro h
      omega
  | succ m ih =>
    obtain ⟨s0, hs0, j1, j2, j3, j4, j5⟩ := ih
    have hstep := pumpStream_succ sched rae interp rt stream m s0 hs0 (by rw [j2]; exact hpty)
    obtain ⟨s, hs, i1, i2, _, i4, i5, i6, i7, i8⟩ :=
      rote_vt_update_loop_stream sched rae interp hk ROTE_VT_UPDATE_ITERATIONS
        s0.1 s0.2 (by rw [j2]; exact hpty) (by rw [j2]; exact hfd)
    have hpos : 0 < ROTE_VT_UPDATE_ITERATIONS := by decide
    refine ⟨s, hstep.trans hs, by rw [i1, j1], by rw [i2, j2], i6 j3, ?_, ?_⟩
    · by_cases hp : s0.2.kern.pending = []
      · have h0 := i4
        rw [hp] at h0
        simp only [List.length_nil] at h0
        omega
      · have hlt := i5 hpos hp
        omega
    · intro hm
      by_cases hp : s0.2.kern.pending = []
      · exact i8 hpos hp
      · have hl : 0 < s0.2.kern.pending.length := List.length_pos.mpr hp
        omega

/-- Once a pump has no defined result, neither has any later one. -/
theorem pumpN_none {κ : Type} (K : Kernel κ) (interp : Interp) (m : Nat) (rt : RoteTerm)
    (w : World κ) (h : pumpN K interp m rt w = none) :
    pumpN K interp (m + 1) rt w = none := by
  simp only [pumpN, h]

/-- Pumps of a terminal whose descriptor is not below `FD_SETSIZE` have no defined result. -/
theorem pumpStream_sampleHigh_none (m : Nat) :
    pumpStream (fun _ => 1) true sampleInterp sampleHigh [97, 98, 99] (m + 1) = none := by
  induction m with
  | zero => rfl
  | succ m ih => exact pumpN_none _ _ _ _ _ ih

/-- C3 as stated fails: on a terminal attached to descriptor 1103, with an interpreter that
leaves the descriptor alone and a descriptor that delivers `abc` one byte per read and then
end-of-stream, the first pump already has no defined result (its `FD_SET` is out of range),
and no number of pumps ends in a state where `abc` has been injected. -/
theorem rote_vt_update_stream_lost_above_fd_setsize :
    0 ≤ sampleHigh.pd.pty ∧ FD_SETSIZE ≤ sampleHigh.pd.pty ∧
    pumpStream (fun _ => 1) true sampleInterp sampleHigh [97, 98, 99] 1 = none ∧
    ¬ ∃ m s, pumpStream (fun _ => 1) true sampleInterp sampleHigh [97, 98, 99] m = some s ∧
        injected s.2.log = [97, 98, 99] := by
  refine ⟨by decide, by decide, rfl, ?_⟩
  rintro ⟨m, s, hs, hinj⟩
  cases m with
  | zero =>
    have h0 : pumpStream (fun _ => 1) true sampleInterp sampleHigh [97, 98, 99] 0
        = some (sampleHigh, ⟨⟨[97, 98, 99], false, 0⟩, []⟩) := rfl
    rw [h0] at hs
    have hs2 := Option.some.inj hs
    rw [← hs2] at hinj
    simp [injected] at hinj
  | succ m =>
    rw [pumpStream_sampleHigh_none m] at hs
    exact Option.noConfusion hs

/-- C3, amended: over a descriptor below `FD_SETSIZE` that delivers `stream` and then
end-of-stream, with an interpreter that leaves the descriptor alone, every number `m` of
pumps ends in a defined state; there the bytes injected so far are a leading part of
`stream` and the rest is still pending in the descriptor; for `m ≥ stream.length` they are
the whole of `stream`; for `m > stream.length` end-of-stream has been read; and once
end-of-stream has been read the next pump returns and injects nothing. -/
theorem rote_vt_update_forwards_stream (sched : Nat → Nat) (readyAfterEof : Bool)
    (interp : Interp) (rt : RoteTerm) (stream : List Byte)
    (hk : KeepsPty interp) (hpty : 0 ≤ rt.pd.pty) (hfd : rt.pd.pty < FD_SETSIZE) :
    ∀ m, ∃ s, pumpStream sched readyAfterEof interp rt stream m = some s ∧
      injected s.2.log <+: stream ∧
      injected s.2.log ++ s.2.kern.pending = stream ∧
      (stream.length ≤ m → injected s.2.log = stream) ∧
      (stream.length < m → s.2.kern.eof = true) ∧
      (s.2.kern.eof = true →
        ∃ s1 evs, pumpStream sched readyAfterEof interp rt stream (m + 1) = some s1 ∧
          s1.2.log = s.2.log ++ evs ∧ injectCount evs = 0 ∧ injected evs = []) := by
  have inv := pumpStream_invariant sched readyAfterEof interp hk rt stream hpty hfd
  intro m
  obtain ⟨s, hs, j1, j2, j3, j4, j5⟩ := inv m
  refine ⟨s, hs, ⟨_, j1⟩, j1, ?_, j5, ?_⟩
  · intro hm
    have hnil : s.2.kern.pending = [] := List.length_eq_zero.mp (by omega)
    rw [hnil, List.append_nil] at j1
    exact j1
  · intro he
    have hnil := j3 he
    have hstep := pumpStream_succ sched readyAfterEof interp rt stream m s hs
      (by rw [j2]; exact hpty)
    obtain ⟨s1, hs1, i1, _, i3, _⟩ := rote_vt_update_loop_stream sched readyAfterEof interp hk
      ROTE_VT_UPDATE_ITERATIONS s.1 s.2 (by rw [j2]; exact hpty) (by rw [j2]; exact hfd)
    obtain ⟨evs, hlog, _⟩ := rote_vt_update_loop_log (streamKernel sched readyAfterEof) interp
      ROTE_VT_UPDATE_ITERATIONS s.1 s.2 s1 hs1
    have hcount := i3 hnil
    refine ⟨s1, evs, hstep.trans hs1, hlog, ?_, ?_⟩
    · rw [hlog, injectCount_append] at hcount
      omega
    · have hlen := congrArg List.length i1
      rw [hlog, injected_append, hnil] at hlen
      simp only [List.length_append, List.append_nil] at hlen
      have hlen2 : s1.2.kern.pending.length ≤ s.2.kern.pending.length := by
        obtain ⟨s2, hs2, _, _, _, k4, _⟩ := rote_vt_update_loop_stream sched readyAfterEof
          interp hk ROTE_VT_UPDATE_ITERATIONS s.1 s.2 (by rw [j2]; exact hpty)
          (by rw [j2]; exact hfd)
        rw [hs1] at hs2
        have := Option.some.inj hs2
        rw [this]
        exact k4
      rw [hnil] at hlen2
      simp only [List.length_nil] at hlen2
      have h1 : (injected evs).length = 0 := by omega
      exact List.length_eq_zero.mp h1

/-- Instance of the amended C3: the three bytes `abc` through a descriptor that hands out one
byte per read, on a terminal attached to descriptor 3; three pumps are asked for. -/
theorem rote_vt_update_forwards_stream_witness :
    ∃ s, pumpStream (fun _ => 1) true sampleInterp sampleAttached [97, 98, 99] 3 = some s ∧
      injected s.2.log <+: [97, 98, 99] ∧
      injected s.2.log ++ s.2.kern.pending = [97, 98, 99] ∧
      ([97, 98, 99].length ≤ 3 → injected s.2.log = [97, 98, 99]) ∧
      ([97, 98, 99].length < 3 → s.2.kern.eof = true) ∧
      (s.2.kern.eof = true →
        ∃ s1 evs, pumpStream (fun _ => 1) true sampleInterp sampleAttached [97, 98, 99]
            (3 + 1) = some s1 ∧
          s1.2.log = s.2.log ++ evs ∧ injectCount evs = 0 ∧ injected evs = []) :=
  rote_vt_update_forwards_stream (fun _ => 1) true sampleInterp sampleAttached [97, 98, 99]
    (fun _ _ => rfl) (by decide) (by decide) 3

/-! ## The process handle across calls -/

theorem rote_vt_update_loop_frame {κ : Type} (K : Kernel κ) (interp : Interp)
    (hk : KeepsHandleAndSize interp) :
    ∀ (n : Nat) (rt : RoteTerm) (w : World κ) (s : RoteTerm × World κ),
      rote_vt_update_loop K interp n rt w = some s →
      s.1.pd.pty = rt.pd.pty ∧ s.1.childpid = rt.childpid ∧
      s.1.rows = rt.rows ∧ s.1.cols = rt.cols := by
  intro n
  induction n with
  | zero =>
    intro rt w s h
    simp only [rote_vt_update_loop] at h
    have hs := Option.some.inj h
    rw [← hs]
    exact ⟨rfl, rfl, rfl, rfl⟩
  | succ n ih =>
    intro rt w s h
    unfold rote_vt_update_loop at h
    by_cases hfd : rt.pd.pty < 0 ∨ FD_SETSIZE ≤ rt.pd.pty
    · rw [if_pos hfd] at h
      exact Option.noConfusion h
    · rw [if_neg hfd] at h
      by_cases hsel : (K.select w.kern rt.pd.pty).1 ≤ 0
      · simp only [if_pos hsel] at h
        have hs := Option.some.inj h
        rw [← hs]
        exact ⟨rfl, rfl, rfl, rfl⟩
      · by_cases hrd : (K.read (K.select w.kern rt.pd.pty).2 rt.pd.pty 512).1.ret ≤ 0
        · simp only [if_neg hsel, if_pos hrd] at h
          have hs := Option.some.inj h
          rw [← hs]
          exact ⟨rfl, rfl, rfl, rfl⟩
        · simp only [if_neg hsel, if_neg hrd, rote_vt_inject] at h
          obtain ⟨a1, a2, a3, a4⟩ := ih _ _ s h
          obtain ⟨b1, b2, b3, b4⟩ := hk rt
            ((K.read (K.select w.kern rt.pd.pty).2 rt.pd.pty 512).1.buf.take
              (K.read (K.select w.kern rt.pd.pty).2 rt.pd.pty 512).1.ret.toNat)
          exact ⟨a1.trans b1, a2.trans b2, a3.trans b3, a4.trans b4⟩

theorem rote_vt_update_frame {κ : Type} (K : Kernel κ) (interp : Interp)
    (hk : KeepsHandleAndSize interp) (rt : RoteTerm) (w : World κ)
    (s : RoteTerm × World κ) (h : rote_vt_update K interp rt w = some s) :
    s.1.pd.pty = rt.pd.pty ∧ s.1.childpid = rt.childpid ∧
    s.1.rows = rt.rows ∧ s.1.cols = rt.cols := by
  unfold rote_vt_update at h
  by_cases hp : rt.pd.pty < 0
  · rw [if_pos hp] at h
    have hs := Option.some.inj h
    rw [← hs]
    exact ⟨rfl, rfl, rfl, rfl⟩
  · rw [if_neg hp] at h
    exact rote_vt_update_loop_frame K interp hk _ rt w s h

theorem rote_vt_write_frame {κ : Type} (K : Kernel κ) (interp : Interp)
    (hk : KeepsHandleAndSize interp) (fuel : Nat) (rt : RoteTerm) (data : List Byte)
    (w : World κ) :
    (rote_vt_write K interp fuel rt data w).rt.pd.pty = rt.pd.pty ∧
    (rote_vt_write K interp fuel rt data w).rt.childpid = rt.childpid ∧
    (rote_vt_write K interp fuel rt data w).rt.rows = rt.rows ∧
    (rote_vt_write K interp fuel rt data w).rt.cols = rt.cols := by
  unfold rote_vt_write
  by_cases h : rt.pd.pty < 0
  · simp only [if_pos h, rote_vt_inject]
    exact hk rt data
  · simp only [if_neg h]
    obtain ⟨evs, _, _, _, hfail, hok⟩ := rote_vt_write_loop_log K interp fuel rt data w
    cases hf : writeFailed evs with
    | true =>
      rw [(hfail hf).2.1]
      exact hk rt errormsg
    | false =>
      rw [(hok hf).2.2.1]
      exact ⟨rfl, rfl, rfl, rfl⟩

theorem rote_vt_forkpty_frame {κ : Type} (K : Kernel κ) (hf : ForkptyContract K)
    (rt : RoteTerm) (command : List Byte) (w : World κ) (ret : Int) (rt1 : RoteTerm)
    (w1 : World κ) (h : rote_vt_forkpty K rt command w = ForkOutcome.returned ret rt1 w1) :
    rt1.rows = rt.rows ∧ rt1.cols = rt.cols ∧ (HandleShape rt → HandleShape rt1) := by
  obtain ⟨c1, c2⟩ := hf w.kern (rt.rows % 65536) (rt.cols % 65536)
  unfold rote_vt_forkpty at h
  by_cases hneg : (K.forkpty w.kern (rt.rows % 65536) (rt.cols % 65536)).1.ret < 0
  · simp only [if_pos hneg, c1 hneg, ForkOutcome.returned.injEq] at h
    obtain ⟨_, h2, _⟩ := h
    rw [← h2]
    exact ⟨rfl, rfl, fun hs => hs⟩
  · by_cases hz : (K.forkpty w.kern (rt.rows % 65536) (rt.cols % 65536)).1.ret = 0
    · simp only [if_neg hneg, if_pos hz] at h
      exact ForkOutcome.noConfusion h
    · have hpos : 0 < (K.forkpty w.kern (rt.rows % 65536) (rt.cols % 65536)).1.ret := by
        omega
      obtain ⟨fd, hfd, hfd0⟩ := c2 hpos
      simp only [if_neg hneg, if_neg hz, hfd, ForkOutcome.returned.injEq] at h
      obtain ⟨_, h2, _⟩ := h
      rw [← h2]
      exact ⟨rfl, rfl, fun _ => Or.inr ⟨hfd0, hpos⟩⟩

theorem applyOp_frame {κ : Type} (K : Kernel κ) (interp : Interp)
    (hk : KeepsHandleAndSize interp) (hf : ForkptyContract K) (op : Op)
    (s s1 : RoteTerm × World κ) (h : applyOp K interp op s = some s1) :
    s1.1.rows = s.1.rows ∧ s1.1.cols = s.1.cols ∧
    (HandleShape s.1 → HandleShape s1.1) ∧
    (op.isAttachOrDetach = false →
      s1.1.pd.pty = s.1.pd.pty ∧ s1.1.childpid = s.1.childpid) := by
  cases op with
  | forkpty command =>
    simp only [applyOp] at h
    cases hfo : rote_vt_forkpty K s.1 command s.2 with
    | returned ret rt1 w1 =>
      rw [hfo] at h
      have hs := Option.some.inj h
      obtain ⟨a1, a2, a3⟩ := rote_vt_forkpty_frame K hf s.1 command s.2 ret rt1 w1 hfo
      rw [← hs]
      exact ⟨a1, a2, a3, fun hc => absurd hc (by simp [Op.isAttachOrDetach])⟩
    | child c w1 =>
      rw [hfo] at h
      exact Option.noConfusion h
  | forsake_child =>
    simp only [applyOp] at h
    have hs := Option.some.inj h
    rw [← hs]
    refine ⟨rfl, rfl, fun _ => Or.inl ⟨?_, rfl⟩,
      fun hc => absurd hc (by simp [Op.isAttachOrDetach])⟩
    show (-1 : Int) < 0
    decide
  | update =>
    simp only [applyOp] at h
    obtain ⟨a1, a2, a3, a4⟩ := rote_vt_update_frame K interp hk s.1 s.2 s1 h
    refine ⟨a3, a4, ?_, fun _ => ⟨a1, a2⟩⟩
    intro hsh
    unfold HandleShape
    rw [a1, a2]
    exact hsh
  | write data fuel =>
    simp only [applyOp] at h
    by_cases hr : (rote_vt_write K interp fuel s.1 data s.2).returned = true
    · rw [if_pos hr] at h
      have hs := Option.some.inj h
      obtain ⟨a1, a2, a3, a4⟩ := rote_vt_write_frame K interp hk fuel s.1 data s.2
      rw [← hs]
      refine ⟨a3, a4, ?_, fun _ => ⟨a1, a2⟩⟩
      intro hsh
      unfold HandleShape
      rw [a1, a2]
      exact hsh
    · rw [if_neg hr] at h
      exact Option.noConfusion h
  | install_handler handler =>
    simp only [applyOp] at h
    have hs := Option.some.inj h
    rw [← hs]
    exact ⟨rfl, rfl, fun hsh => hsh, fun _ => ⟨rfl, rfl⟩⟩
  | get_pty_fd =>
    simp only [applyOp] at h
    have hs := Option.some.inj h
    rw [← hs]
    exact ⟨rfl, rfl, fun hsh => hsh, fun _ => ⟨rfl, rfl⟩⟩

theorem runOps_frame {κ : Type} (K : Kernel κ) (interp : Interp)
    (hk : KeepsHandleAndSize interp) (hf : ForkptyContract K) :
    ∀ (ops : List Op) (s s1 : RoteTerm × World κ), runOps K interp ops s = some s1 →
      s1.1.rows = s.1.rows ∧ s1.1.cols = s.1.cols ∧ (HandleShape s.1 → HandleShape s1.1) := by
  intro ops
  induction ops with
  | nil =>
    intro s s1 h
    simp only [runOps] at h
    have hs := Option.some.inj h
    rw [← hs]
    exact ⟨rfl, rfl, fun hsh => hsh⟩
  | cons op ops ih =>
    intro s s1 h
    simp only [runOps] at h
    cases ha : applyOp K interp op s with
    | none =>
      rw [ha] at h
      exact Option.noConfusion h
    | some s2 =>
      rw [ha] at h
      obtain ⟨a1, a2, a3, _⟩ := applyOp_frame K interp hk hf op s s2 ha
      obtain ⟨b1, b2, b3⟩ := ih s2 s1 h
      exact ⟨b1.trans a1, b2.trans a2, fun hsh => b3 (a3 hsh)⟩

/-- C10: in every state reached from a successful `rote_vt_create` by calls of
`rote_vt_forkpty` (returning in the parent), `rote_vt_forsake_child`, `rote_vt_update`,
`rote_vt_write`, `rote_vt_install_handler` and `rote_vt_get_pty_fd`, the handle has exactly
one of the shapes `(pty < 0, childpid = 0)` and `(pty ≥ 0, childpid > 0)`, the recorded
dimensions are those given to `rote_vt_create`, `rote_vt_get_pty_fd` returns `pty` and leaves
the state alone, every further call keeps the dimensions, and every further call other than
attach and detach keeps the handle. The interpreter is taken to leave handle and dimensions
alone, and the system `forkpty` to fail without storing a descriptor or to succeed with a
positive pid and a non-negative descriptor. -/
theorem process_handle_invariant {κ : Type} (K : Kernel κ) (interp : Interp)
    (rows cols : Int) (heap : Nat → Bool) (rt0 : RoteTerm) (k0 : κ) (ops : List Op)
    (s : RoteTerm × World κ)
    (hk : KeepsHandleAndSize interp) (hf : ForkptyContract K)
    (hc : rote_vt_create rows cols heap = some rt0)
    (hrun : runOps K interp ops (rt0, ⟨k0, []⟩) = some s) :
    HandleShape s.1 ∧
    ¬ ((s.1.pd.pty < 0 ∧ s.1.childpid = 0) ∧ (0 ≤ s.1.pd.pty ∧ 0 < s.1.childpid)) ∧
    s.1.rows = rows ∧ s.1.cols = cols ∧
    rote_vt_get_pty_fd s.1 = s.1.pd.pty ∧
    applyOp K interp Op.get_pty_fd s = some s ∧
    (∀ op s1, applyOp K interp op s = some s1 →
      HandleShape s1.1 ∧ s1.1.rows = rows ∧ s1.1.cols = cols ∧
      (op.isAttachOrDetach = false →
        s1.1.pd.pty = s.1.pd.pty ∧ s1.1.childpid = s.1.childpid)) := by
  have h0 : HandleShape rt0 ∧ rt0.rows = rows ∧ rt0.cols = cols := by
    unfold rote_vt_create at hc
    by_cases h : rows ≤ 0 ∨ cols ≤ 0
    · rw [if_pos h] at hc
      exact Option.noConfusion hc
    · rw [if_neg h] at hc
      have hrt := Option.some.inj hc
      rw [← hrt]
      refine ⟨Or.inl ⟨?_, rfl⟩, rfl, rfl⟩
      show (-1 : Int) < 0
      decide
  obtain ⟨a1, a2, a3⟩ := runOps_frame K interp hk hf ops (rt0, ⟨k0, []⟩) s hrun
  have hrows : s.1.rows = rows := a1.trans h0.2.1
  have hcols : s.1.cols = cols := a2.trans h0.2.2
  refine ⟨a3 h0.1, ?_, hrows, hcols, rfl, rfl, ?_⟩
  · intro hboth
    have h1 := hboth.1.1
    have h2 := hboth.2.1
    omega
  · intro op s1 hop
    obtain ⟨b1, b2, b3, b4⟩ := applyOp_frame K interp hk hf op s s1 hop
    exact ⟨b3 (a3 h0.1), b1.trans hrows, b2.trans hcols, b4⟩

/-- Instance of C10: the sample session, which attaches descriptor 3 and child 100. -/
theorem process_handle_invariant_witness :
    HandleShape sampleFinal.1 ∧
    ¬ ((sampleFinal.1.pd.pty < 0 ∧ sampleFinal.1.childpid = 0) ∧
      (0 ≤ sampleFinal.1.pd.pty ∧ 0 < sampleFinal.1.childpid)) ∧
    sampleFinal.1.rows = 1 ∧ sampleFinal.1.cols = 1 ∧
    rote_vt_get_pty_fd sampleFinal.1 = sampleFinal.1.pd.pty ∧
    applyOp sampleKernel sampleInterp Op.get_pty_fd sampleFinal = some sampleFinal ∧
    (∀ op s1, applyOp sampleKernel sampleInterp op sampleFinal = some s1 →
      HandleShape s1.1 ∧ s1.1.rows = 1 ∧ s1.1.cols = 1 ∧
      (op.isAttachOrDetach = false →
        s1.1.pd.pty = sampleFinal.1.pd.pty ∧ s1.1.childpid = sampleFinal.1.childpid)) :=
  process_handle_invariant sampleKernel sampleInterp 1 1 (fun _ => false) sampleFresh 0
    sampleOps sampleFinal
    (fun _ _ => ⟨rfl, rfl, rfl, rfl⟩)
    (by
      intro k r c
      refine ⟨?_, ?_⟩
      · intro h
        simp only [sampleKernel] at h
        omega
      · intro _
        exact ⟨3 + (k : Int), rfl, by omega⟩)
    (by decide)
    rfl

end Rote
